import Mathlib

/-!
Verification development for the header-driven NLP transaction parser of the
mindat-assistant repository (src/services/nlp_parser.py, src/config.py).

The embedding models:
  * `entityMap`            — NLPParser.__init__'s entity_map literal;
  * `getActiveEntities`    — NLPParser._get_active_entities;
  * `parsePricePart`       — NLPParser._parse_price_part;
  * `dateStage`            — NLPParser._parse_relative_date;
  * `extractRecord` / `parseTransaction` — NLPParser.parse_transaction
    (extraction stages, then arithmetic reconciliation);
  * `toRowData`            — NLPParser.to_row_data.

Modelling conventions:
  * Python strings are `String` / `List Char`; `.lower()` is the ASCII
    lowering `lcC` (non-ASCII lowering is not exercised here), `.strip()`
    strips the ASCII whitespace class `pyIsSpace`.
  * Python floats are modelled as exact rationals `ℚ`.  Every numeric value
    evaluated concretely in this file (3.6jt, 500rb, 10rb, 20rb/2, …) is one
    where CPython's binary floating point yields the same exact value, so the
    rational model agrees with the code on all inputs exercised below.
  * `datetime.now()`/`strftime` are abstracted by a `PyClock` parameter:
    `ord` is `datetime.now().toordinal()` and `fmt n` the formatted
    timestamp of the moment `n` days before the current one — the parser
    only ever formats `now - timedelta(days=n)`.  The `OverflowError`
    raised by `timedelta(days=n)` for `n > 999999999`, or by the
    subtraction when the result falls before year 1 (`ord - n < 1`), is
    modelled by `dateStage` returning `none`.
  * A Python function that can raise an uncaught exception is modelled with
    an `Option` result, `none` meaning "raised".  In `_parse_price_part` the
    `int(parts[1])` call sits outside the `try`, so `parsePricePart` returns
    an `Option`; the `try/except` around `float` maps a parse failure to the
    empty result `some ⟨none, none⟩` exactly as the code returns `{}`.
  * The regular expressions of the source are embedded as explicit scanners
    (`searchQty`, `searchPrice`, `searchDaysAgo`, and the `re.sub` loops
    `gsubAux …`) with Python's leftmost-match / first-alternative /
    greedy-literal semantics, which for these patterns involve no
    backtracking.
  * `pyIntL`/`pyFloatL` model `int(str)`/`float(str)` on the decimal forms
    reachable from the price-token character class `[\d.,]` (sign, digits,
    one dot, surrounding whitespace); Python's exponent/inf/nan/underscore
    forms cannot be produced by that grammar and are not modelled.
-/

/-- ASCII lowering, the model of Python `str.lower` on the ASCII range. -/
def lcC (c : Char) : Char :=
  if 65 ≤ c.toNat ∧ c.toNat ≤ 90 then Char.ofNat (c.toNat + 32) else c

/-- The whitespace class of Python `str.strip` / regex `\s` (ASCII part). -/
def pyIsSpace (c : Char) : Bool :=
  c.toNat = 32 || c.toNat = 9 || c.toNat = 10 || c.toNat = 13 ||
  c.toNat = 11 || c.toNat = 12

/-- Decimal digit, the model of regex `\d` (ASCII part). -/
def isDigitC (c : Char) : Bool :=
  48 ≤ c.toNat && c.toNat ≤ 57

/-- Character class `[\d.,]` of the price-token regex. -/
def tokP (c : Char) : Bool :=
  isDigitC c || c = '.' || c = ','

/-- The character list of a string literal. -/
def toL (s : String) : List Char := s.data

/-- Value of a nonempty digit run, as Python `int` reads it. -/
def digitsToNat (l : List Char) : ℕ :=
  l.foldl (fun n c => 10 * n + (c.toNat - 48)) 0

/-- Drop leading whitespace. -/
def dropSpaces (l : List Char) : List Char := l.dropWhile pyIsSpace

/-- Python `str.strip`: drop whitespace at both ends. -/
def stripL (l : List Char) : List Char :=
  ((dropSpaces l).reverse.dropWhile pyIsSpace).reverse

/-- Digit renderer (fuel-based so the kernel can evaluate it). -/
def natToDigitsAux : ℕ → ℕ → List Char
  | 0, _ => []
  | _ + 1, 0 => []
  | f + 1, n => natToDigitsAux f (n / 10) ++ [Char.ofNat (48 + n % 10)]

/-- Decimal rendering of a natural number, as Python `str` prints it. -/
def natToStr (n : ℕ) : String :=
  if n = 0 then "0" else String.mk (natToDigitsAux (n + 1) n)

/-- Decimal rendering of an integer, as Python `str` prints it. -/
def intToStr (i : ℤ) : String :=
  if i < 0 then "-" ++ natToStr i.natAbs else natToStr i.natAbs

/-- Model of Python `int(s)`: optional sign around a digit run, with
surrounding whitespace; `none` models a raised `ValueError`. -/
def pyIntL (l : List Char) : Option ℤ :=
  match stripL l with
  | [] => none
  | c :: rest =>
    if c = '-' then
      if !rest.isEmpty && rest.all isDigitC then some (-(digitsToNat rest : ℤ)) else none
    else if c = '+' then
      if !rest.isEmpty && rest.all isDigitC then some ((digitsToNat rest : ℤ)) else none
    else
      if (c :: rest).all isDigitC then some ((digitsToNat (c :: rest) : ℤ)) else none

/-- Unsigned decimal (`digits`, `digits.`, `.digits`, `digits.digits`). -/
def pyFloatUnsigned (l : List Char) : Option ℚ :=
  let ip := l.takeWhile isDigitC
  match l.dropWhile isDigitC with
  | [] => if ip.isEmpty then none else some ((digitsToNat ip : ℚ))
  | c :: fr =>
    if c = '.' then
      if fr.all isDigitC && !(ip.isEmpty && fr.isEmpty) then
        some ((digitsToNat ip : ℚ) + (digitsToNat fr : ℚ) / ((10 : ℚ) ^ fr.length))
      else none
    else none

/-- Model of Python `float(s)` on the decimal forms reachable from the
price-token grammar; `none` models a raised `ValueError`. -/
def pyFloatL (l : List Char) : Option ℚ :=
  match stripL l with
  | [] => none
  | c :: rest =>
    if c = '-' then (pyFloatUnsigned rest).map (fun q => -q)
    else if c = '+' then pyFloatUnsigned rest
    else pyFloatUnsigned (c :: rest)

/-- Exact (case-sensitive) substring test, Python's `sub in s`. -/
def containsSub (sub : List Char) : List Char → Bool
  | [] => sub.isEmpty
  | c :: t => sub.isPrefixOf (c :: t) || containsSub sub t

/-- Case-insensitive literal match at the head of the text: returns the
consumed original-case characters and the rest.  `kw` is lowercase. -/
def matchCI (kw : List Char) (l : List Char) : Option (List Char × List Char) :=
  match kw, l with
  | [], rest => some ([], rest)
  | _ :: _, [] => none
  | k :: ks, c :: cs =>
    if lcC c = k then (matchCI ks cs).map (fun pr => (c :: pr.1, pr.2)) else none

/-- Try a regex alternation of literals in declared order. -/
def tryAlts (alts : List (List Char)) (l : List Char) : Option (List Char × List Char) :=
  alts.findSome? (fun a => matchCI a l)

/-- One pass of `re.sub(alternation, '', text)`: scan left to right, at each
position try `m`; on a match continue after it, otherwise keep the character.
`m` consumes at least one character whenever it succeeds, so fuel
`l.length` suffices for the whole scan. -/
def gsubAux (m : List Char → Option (List Char)) : ℕ → List Char → List Char
  | _, [] => []
  | 0, l => l
  | fuel + 1, c :: t =>
    match m (c :: t) with
    | some rest => gsubAux m fuel rest
    | none => c :: gsubAux m fuel t

/-- `re.sub` removing every occurrence of one of the literal alternatives. -/
def gsubAlts (alts : List (List Char)) (l : List Char) : List Char :=
  gsubAux (fun x => (tryAlts alts x).map (fun pr => pr.2)) l.length l

/-- Python `str.replace(old, '', 1)`: remove the first occurrence of `old`. -/
def removeFirst (l old : List Char) : List Char :=
  match l with
  | [] => []
  | c :: t => if old.isPrefixOf (c :: t) then (c :: t).drop old.length else c :: removeFirst t old

/-- `'/'`-splitting, the model of Python `str.split('/')`. -/
def splitOnChar (sep : Char) : List Char → List (List Char)
  | [] => [[]]
  | c :: t =>
    match splitOnChar sep t with
    | [] => if c = sep then [[], []] else [[c]]
    | h :: r => if c = sep then [] :: h :: r else (c :: h) :: r

/-- `h.lower().strip()`, the header normalisation of `_get_active_entities`. -/
def lowerStrip (h : String) : String := String.mk (stripL (h.data.map lcC))

/-- The `entity_map` literal of `NLPParser.__init__`, in declaration order. -/
def entityMap : List (String × List String) :=
  [("item_name", ["item", "nama", "barang", "produk", "deskripsi", "keterangan"]),
   ("quantity", ["quantity", "qty", "jumlah", "unit", "buah"]),
   ("unit_price", ["harga satuan", "harga/unit", "harga per unit", "satuan"]),
   ("total_price", ["total", "total harga", "harga total", "amount", "harga", "jumlah pengeluaran"]),
   ("transaction_type", ["type", "tipe", "jenis", "kategori"]),
   ("profit", ["laba", "profit", "keuntungan"])]

/-- For one entity: the first synonym present among the normalised headers,
resolved to the original-cased header (`headers[headers_lower.index(syn)]`
is the first header whose normalisation equals `syn`). -/
def resolveEntity (headers : List String) (syns : List String) : Option String :=
  syns.findSome? (fun syn => headers.find? (fun h => lowerStrip h == syn))

/-- `NLPParser._get_active_entities`: the active entity → header map, built
in `entity_map` declaration order. -/
def getActiveEntities (headers : List String) : List (String × String) :=
  entityMap.foldl
    (fun acc p =>
      match resolveEntity headers p.2 with
      | some h => acc ++ [(p.1, h)]
      | none => acc)
    []

/-- Dictionary lookup `active_entities.get(entity)` / `entity in active_entities`. -/
def activeLookup (a : List (String × String)) (e : String) : Option String :=
  (a.find? (fun p => p.1 == e)).map (fun p => p.2)

/-- `'entity' in active_entities`. -/
def activeHas (a : List (String × String)) (e : String) : Bool :=
  (activeLookup a e).isSome

/-- The inverse map `{header_name: entity_key}` built by `to_row_data`; dict
insertion makes the last assignment for a header win. -/
def headerToEntity (a : List (String × String)) (h : String) : Option String :=
  (a.reverse.find? (fun p => p.2 == h)).map (fun p => p.1)

/-- A scalar stored in the parsed-record dictionary: Python int, float or str. -/
inductive PyVal where
  | pInt (n : ℤ)
  | pFloat (q : ℚ)
  | pStr (s : String)
  deriving DecidableEq, Repr

/-- Python truthiness of a record value. -/
def pyTruthy : PyVal → Bool
  | .pInt n => n != 0
  | .pFloat q => q != 0
  | .pStr s => !s.isEmpty

/-- Python `str` of a record value.  Integral floats print with a trailing
`.0` as CPython does; no non-integral float is ever rendered in this
development, so that case is left as an explicit numerator/denominator
marker rather than CPython's shortest round-trip repr. -/
def pyStr : PyVal → String
  | .pInt n => intToStr n
  | .pFloat q => if q.den = 1 then intToStr q.num ++ ".0" else intToStr q.num ++ "/" ++ natToStr q.den
  | .pStr s => s

/-- The result dictionary of `_parse_price_part`. -/
structure PriceData where
  unit_price : Option ℚ
  total_price : Option ℚ
  deriving DecidableEq, Repr

/-- The parsed-record dictionary built by `parse_transaction`; `none` models
an absent key. -/
structure ParsedRecord where
  timestamp : Option String
  quantity : Option ℤ
  unit_price : Option ℚ
  total_price : Option ℚ
  transaction_type : Option String
  item_name : Option String
  profit : Option ℚ
  deriving DecidableEq, Repr

/-- `record[entity_key]` with presence (`entity_key in record`) as `Option`. -/
def ParsedRecord.getEntity (r : ParsedRecord) : String → Option PyVal
  | "timestamp" => r.timestamp.map .pStr
  | "quantity" => r.quantity.map .pInt
  | "unit_price" => r.unit_price.map .pFloat
  | "total_price" => r.total_price.map .pFloat
  | "transaction_type" => r.transaction_type.map .pStr
  | "item_name" => r.item_name.map .pStr
  | "profit" => r.profit.map .pFloat
  | _ => none

/-- Truthiness of `results.get(key)` for an optional int. -/
def optIntTruthy (o : Option ℤ) : Bool := o.getD 0 != 0

/-- Truthiness of `results.get(key)` for an optional float. -/
def optRatTruthy (o : Option ℚ) : Bool := o.getD 0 != 0

/-- Loop body of `to_row_data` for one header: empty string for an
unresolved header (`entity_key` falsy or missing), an absent key, or a
falsy value; otherwise `str(parsed_data[entity_key] or '')`. -/
def projCell (r : ParsedRecord) (active : List (String × String)) (h : String) : String :=
  match headerToEntity active h with
  | none => ""
  | some ek =>
    if ek.isEmpty then ""
    else
      match r.getEntity ek with
      | none => ""
      | some v => if pyTruthy v then pyStr v else ""

/-- `NLPParser.to_row_data`: project the record into header order. -/
def toRowData (r : ParsedRecord) (headers : List String) : List String :=
  headers.map (projCell r (getActiveEntities headers))

/-- Pieces of a match of the price regex
`(?:harga|seharga|senilai)\s+([\d.,]+(?:jt|juta|rb|ribu|k)?(?:\s*\/\s*\d+)?)`
at one text position: introducer word, the mandatory whitespace, the
`[\d.,]+` token, the optional magnitude suffix, the optional `/N` tail. -/
structure PriceMatch where
  intro : List Char
  sp : List Char
  tok : List Char
  suf : List Char
  slash : List Char
  deriving DecidableEq, Repr

/-- `group(0)` of the price match. -/
def pmG0 (m : PriceMatch) : List Char := m.intro ++ m.sp ++ m.tok ++ m.suf ++ m.slash

/-- `group(1)` of the price match. -/
def pmG1 (m : PriceMatch) : List Char := m.tok ++ m.suf ++ m.slash

/-- The magnitude-suffix alternation, in the regex's declared order. -/
def sufAlts : List (List Char) := [toL "jt", toL "juta", toL "rb", toL "ribu", toL "k"]

/-- The optional `\s*\/\s*\d+` tail of the price token: all-or-nothing, so
a slash with no digits after it contributes nothing. -/
def slashPart (r : List Char) : List Char :=
  match r.dropWhile pyIsSpace with
  | '/' :: rb =>
    if ((rb.dropWhile pyIsSpace).takeWhile isDigitC).isEmpty then []
    else
      r.takeWhile pyIsSpace ++
        '/' :: (rb.takeWhile pyIsSpace ++ (rb.dropWhile pyIsSpace).takeWhile isDigitC)
  | _ => []

/-- Attempt the price regex at the head of the text.  The quantifiers of
this pattern are forced (no alternative can absorb the next literal), so
greedy maximal munch per component is its exact backtracking semantics. -/
def matchPriceAt (l : List Char) : Option PriceMatch :=
  match tryAlts [toL "harga", toL "seharga", toL "senilai"] l with
  | none => none
  | some (kw, r1) =>
    if (r1.takeWhile pyIsSpace).isEmpty then none
    else
      if ((r1.dropWhile pyIsSpace).takeWhile tokP).isEmpty then none
      else
        match tryAlts sufAlts ((r1.dropWhile pyIsSpace).dropWhile tokP) with
        | some (sufm, r4) =>
          some ⟨kw, r1.takeWhile pyIsSpace, (r1.dropWhile pyIsSpace).takeWhile tokP, sufm,
                slashPart r4⟩
        | none =>
          some ⟨kw, r1.takeWhile pyIsSpace, (r1.dropWhile pyIsSpace).takeWhile tokP, [],
                slashPart ((r1.dropWhile pyIsSpace).dropWhile tokP)⟩

/-- `re.search` of the price pattern: leftmost matching position. -/
def searchPrice : List Char → Option PriceMatch
  | [] => none
  | c :: t =>
    match matchPriceAt (c :: t) with
    | some m => some m
    | none => searchPrice t

/-- Attempt the quantity regex `(\d+)\s*(?:unit|buah|pcs)` at the head of
the text; returns `(group(0), group(1))`. -/
def matchQtyAt (l : List Char) : Option (List Char × List Char) :=
  let ds := l.takeWhile isDigitC
  let r1 := l.dropWhile isDigitC
  if ds.isEmpty then none
  else
    let sp := r1.takeWhile pyIsSpace
    let r2 := r1.dropWhile pyIsSpace
    match tryAlts [toL "unit", toL "buah", toL "pcs"] r2 with
    | some (kwm, _) => some (ds ++ sp ++ kwm, ds)
    | none => none

/-- `re.search` of the quantity pattern: leftmost matching position. -/
def searchQty : List Char → Option (List Char × List Char)
  | [] => none
  | c :: t =>
    match matchQtyAt (c :: t) with
    | some pr => some pr
    | none => searchQty t

/-- Attempt `(\d+)\s+hari\s+yang\s+lalu` at the head; returns the day count. -/
def matchDaysAgoAt (l : List Char) : Option ℕ :=
  let ds := l.takeWhile isDigitC
  let r1 := l.dropWhile isDigitC
  if ds.isEmpty then none
  else
    let sp1 := r1.takeWhile pyIsSpace
    let r2 := r1.dropWhile pyIsSpace
    if sp1.isEmpty then none
    else
      match matchCI (toL "hari") r2 with
      | none => none
      | some (_, r3) =>
        let sp2 := r3.takeWhile pyIsSpace
        let r4 := r3.dropWhile pyIsSpace
        if sp2.isEmpty then none
        else
          match matchCI (toL "yang") r4 with
          | none => none
          | some (_, r5) =>
            let sp3 := r5.takeWhile pyIsSpace
            let r6 := r5.dropWhile pyIsSpace
            if sp3.isEmpty then none
            else (matchCI (toL "lalu") r6).map (fun _ => digitsToNat ds)

/-- `re.search` of the days-ago pattern. -/
def searchDaysAgo : List Char → Option ℕ
  | [] => none
  | c :: t =>
    match matchDaysAgoAt (c :: t) with
    | some n => some n
    | none => searchDaysAgo t

/-- One position of the cleaning sub
`re.sub(r'(\d+\s+hari\s+yang\s+lalu|kemarin|hari\s+ini)\s*', '', text, I)`:
the alternation in declared order, then trailing `\s*`. -/
def matchDateCleanAt (l : List Char) : Option (List Char) :=
  let alt1 : Option (List Char) :=
    let ds := l.takeWhile isDigitC
    let r1 := l.dropWhile isDigitC
    if ds.isEmpty then none
    else
      let sp1 := r1.takeWhile pyIsSpace
      let r2 := r1.dropWhile pyIsSpace
      if sp1.isEmpty then none
      else
        match matchCI (toL "hari") r2 with
        | none => none
        | some (_, r3) =>
          let sp2 := r3.takeWhile pyIsSpace
          let r4 := r3.dropWhile pyIsSpace
          if sp2.isEmpty then none
          else
            match matchCI (toL "yang") r4 with
            | none => none
            | some (_, r5) =>
              let sp3 := r5.takeWhile pyIsSpace
              let r6 := r5.dropWhile pyIsSpace
              if sp3.isEmpty then none
              else (matchCI (toL "lalu") r6).map (fun pr => pr.2)
  let altRest : Option (List Char) :=
    match alt1 with
    | some rest => some rest
    | none =>
      match matchCI (toL "kemarin") l with
      | some (_, rest) => some rest
      | none =>
        match matchCI (toL "hari") l with
        | none => none
        | some (_, r3) =>
          let sp := r3.takeWhile pyIsSpace
          let r4 := r3.dropWhile pyIsSpace
          if sp.isEmpty then none
          else (matchCI (toL "ini") r4).map (fun pr => pr.2)
  altRest.map dropSpaces

/-- The ambient clock of the parser: `ord` is `datetime.now().toordinal()`
(the proleptic-Gregorian day number of the current moment, between 1 and
3652059), and `fmt n` is `(now - timedelta(days=n)).strftime("%Y-%m-%d
%H:%M:%S")` for the day counts `n` at which that datetime exists. -/
structure PyClock where
  ord : ℕ
  fmt : ℕ → String

/-- `timedelta(days=n)` raises `OverflowError` above this magnitude. -/
def timedeltaMax : ℕ := 999999999

/-- `NLPParser._parse_relative_date`, as the formatted timestamp plus the
cleaned text.  `none` models the uncaught `OverflowError` raised either by
the `timedelta(days=n)` constructor (for `n > 999999999`) or by
`now - timedelta(days=n)` when the resulting date falls before year 1
(`datetime.min`), i.e. when `ord - n < 1`.  The "hari ini" branch performs
no subtraction and the not-found branch returns `now` unchanged, so
neither can raise. -/
def dateStage (clock : PyClock) (l : List Char) : Option (String × List Char) :=
  match searchDaysAgo (l.map lcC) with
  | some n =>
    if n > timedeltaMax then none
    else if clock.ord ≤ n then none
    else some (clock.fmt n, stripL (gsubAux matchDateCleanAt l.length l))
  | none =>
    if containsSub (toL "kemarin") (l.map lcC) then
      if clock.ord ≤ 1 then none
      else some (clock.fmt 1, stripL (gsubAux matchDateCleanAt l.length l))
    else if containsSub (toL "hari ini") (l.map lcC) then
      some (clock.fmt 0, stripL (gsubAux matchDateCleanAt l.length l))
    else some (clock.fmt 0, l)

/-- Magnitude normalisation of `_parse_price_part`: detect and strip one
suffix family, returning the multiplier and the stripped numeric text. -/
def normalizeMain (main : List Char) : ℚ × List Char :=
  if containsSub (toL "jt") main || containsSub (toL "juta") main then
    (1000000, gsubAlts [toL "jt", toL "juta"] main)
  else if containsSub (toL "rb") main || containsSub (toL "ribu") main ||
      containsSub (toL "k") main then
    (1000, gsubAlts [toL "rb", toL "ribu", toL "k"] main)
  else (1, main)

/-- The `try` block of `_parse_price_part`: parse the numeric prefix, apply
the multiplier (`base_price`), and classify as unit or total price; a float
parse failure is caught and yields the empty dictionary. -/
def priceBody (cnt : ℤ) (main : List Char) : PriceData :=
  match pyFloatL (stripL (normalizeMain main).2) with
  | none => ⟨none, none⟩
  | some q =>
    if cnt > 1 then
      ⟨some (q * (normalizeMain main).1 / (cnt : ℚ)), some (q * (normalizeMain main).1)⟩
    else ⟨some (q * (normalizeMain main).1), none⟩

/-- `parts = price_str.lower().replace(',', '').split('/')` of
`_parse_price_part`. -/
def priceParts (l : List Char) : List (List Char) :=
  splitOnChar '/' ((l.map lcC).filter (fun c => c ≠ ','))

/-- `NLPParser._parse_price_part` on characters; `none` models the uncaught
`ValueError` of `int(parts[1])` (which sits outside the `try`). -/
def parsePricePartL (l : List Char) : Option PriceData :=
  if l.isEmpty then some ⟨none, none⟩
  else
    match (if (priceParts l).length > 1 then pyIntL ((priceParts l).getD 1 []) else some 1) with
    | none => none
    | some cnt => some (priceBody cnt ((priceParts l).headD []))

/-- `NLPParser._parse_price_part` on strings. -/
def parsePricePart (priceStr : String) : Option PriceData :=
  parsePricePartL priceStr.data

/-- Price stage of `parse_transaction`.  `price_match` is computed on the
same pre-removal snapshot of the working text as `quantity_match`
(`searchText`), while its `group(0)` replacement applies to the text from
which the quantity span was already stripped (`removeText`); when the two
spans overlap the replacement simply finds no occurrence and is a no-op,
exactly as `str.replace` behaves. -/
def priceStage (searchText removeText : List Char) : Option (PriceData × List Char) :=
  match searchPrice searchText with
  | some m => (parsePricePartL (pmG1 m)).map (fun pd => (pd, removeFirst removeText (pmG0 m)))
  | none => some (⟨none, none⟩, removeText)

/-- The transaction-type trigger words, in source order. -/
def soldWords : List String := ["terjual", "dijual", "laku"]

/-- Trigger words for `bought`. -/
def boughtWords : List String := ["beli", "dibeli", "membeli"]

/-- Trigger words for `expense`. -/
def expenseWords : List String := ["biaya", "pengeluaran"]

/-- The action-word alternation of the item-name cleanup sub, in order. -/
def actionWords : List (List Char) :=
  [toL "terjual", toL "dijual", toL "laku", toL "beli", toL "dibeli",
   toL "membeli", toL "biaya", toL "pengeluaran"]

/-- `any(word in clean_text.lower() for word in ws)`. -/
def anyWordIn (ws : List String) (lowered : List Char) : Bool :=
  ws.any (fun w => containsSub (toL w) lowered)

/-- Quantity stage of `parse_transaction`: search, read `group(1)` as an
int, strip `group(0)` from the working text. -/
def qtyStage (l : List Char) : Option ℤ × List Char :=
  match searchQty l with
  | some (g0, ds) => (some ((digitsToNat ds : ℤ)), removeFirst l g0)
  | none => (none, l)

/-- Transaction-type inference (stage 3) over the lowered remaining text. -/
def inferType (lower3 : List Char) : Option String :=
  if anyWordIn soldWords lower3 then some "sold"
  else if anyWordIn boughtWords lower3 then some "bought"
  else if anyWordIn expenseWords lower3 then some "expense"
  else none

/-- Item-name derivation (stage 4): strip every action word, then trim. -/
def itemName (clean3 : List Char) : String :=
  String.mk (stripL (gsubAux (fun x => (tryAlts actionWords x).map (fun pr => pr.2))
    clean3.length clean3))

/-- Stages 1–4 of `NLPParser.parse_transaction` (date, quantity, price,
transaction type, item name) — everything before reconciliation.  Both the
quantity and the price regex are searched on the same date-cleaned text
`clean1`, before either removal; the price removal then applies to the
quantity-stripped text.  `none` models an uncaught exception. -/
def extractRecord (clock : PyClock) (text : String) : Option ParsedRecord :=
  match dateStage clock text.data with
  | none => none
  | some (ts, clean1) =>
    match priceStage clean1 (qtyStage clean1).2 with
    | none => none
    | some (pd, clean3) =>
      some { timestamp := some ts,
             quantity := (qtyStage clean1).1,
             unit_price := pd.unit_price,
             total_price := pd.total_price,
             transaction_type := inferType (clean3.map lcC),
             item_name := some (itemName clean3), profit := none }

/-- Stage 5 of `parse_transaction`: arithmetic reconciliation.  Both guards
read the values captured *before* any update, exactly as the Python locals
`qty`, `unit_price`, `total_price` do. -/
def reconcile (r : ParsedRecord) (active : List (String × String)) : ParsedRecord :=
  let qtyT := optIntTruthy r.quantity
  let upT := optRatTruthy r.unit_price
  let tpT := optRatTruthy r.total_price
  let r1 :=
    if qtyT && upT && activeHas active "total_price" && !tpT then
      { r with total_price := some (((r.quantity.getD 0 : ℤ) : ℚ) * r.unit_price.getD 0) }
    else r
  if qtyT && tpT && activeHas active "unit_price" && !upT then
    let v : ℚ :=
      if r.quantity.getD 0 > 0 then r.total_price.getD 0 / ((r.quantity.getD 0 : ℤ) : ℚ) else 0
    { r1 with unit_price := some v }
  else r1

/-- `NLPParser.parse_transaction`: extraction stages then schema-gated
reconciliation against the active entity map of the supplied headers. -/
def parseTransaction (clock : PyClock) (text : String) (headers : List String) :
    Option ParsedRecord :=
  (extractRecord clock text).map (fun r => reconcile r (getActiveEntities headers))

/-- A fixed clock — 2026-10-12, proleptic ordinal 739901 — used for
concrete evaluations. -/
def clockFix : PyClock := ⟨739901, fun _ => "2026-10-12 00:00:00"⟩

/-- The header list of the end-to-end scenario. -/
def hdrsC1 : List String :=
  ["timestamp", "item_name", "quantity", "unit_price", "total_price", "transaction_type"]

/-- The fold that builds the active entity map only ever appends an entry
whose synonym list resolved; membership therefore comes from the account
list or from some entry of the synonym table. -/
theorem foldlActive_mem (headers : List String) (l : List (String × List String)) :
    ∀ (acc : List (String × String)) (e h : String),
      (e, h) ∈ l.foldl
        (fun acc p =>
          match resolveEntity headers p.2 with
          | some hh => acc ++ [(p.1, hh)]
          | none => acc) acc →
      (e, h) ∈ acc ∨ ∃ syns, (e, syns) ∈ l ∧ resolveEntity headers syns = some h := by
  induction l with
  | nil => intro acc e h hm; exact Or.inl hm
  | cons p t ih =>
    intro acc e h hm
    simp only [List.foldl_cons] at hm
    rcases ih _ e h hm with hacc | ⟨syns, hsyns, hres⟩
    · cases hr : resolveEntity headers p.2 with
      | none => rw [hr] at hacc; exact Or.inl hacc
      | some hh =>
        rw [hr] at hacc
        rcases List.mem_append.1 hacc with h1 | h2
        · exact Or.inl h1
        · have h3 : e = p.1 ∧ h = hh := by simpa using h2
          refine Or.inr ⟨p.2, ?_, ?_⟩
          · rw [h3.1]; exact List.mem_cons_self _ _
          · rw [hr, h3.2]
    · exact Or.inr ⟨syns, List.mem_cons_of_mem _ hsyns, hres⟩

/-- Entries of the active map come from the synonym table. -/
theorem getActive_mem {headers : List String} {e h : String}
    (hm : (e, h) ∈ getActiveEntities headers) :
    ∃ syns, (e, syns) ∈ entityMap ∧ resolveEntity headers syns = some h := by
  rcases foldlActive_mem headers entityMap [] e h hm with hacc | hex
  · simp at hacc
  · exact hex

/-- A resolved header is a member of the header list and is matched by one
of the synonyms, case-insensitively after trimming. -/
theorem resolveEntity_sound {headers syns : List String} {h : String}
    (hr : resolveEntity headers syns = some h) :
    h ∈ headers ∧ ∃ syn ∈ syns, lowerStrip h = syn := by
  obtain ⟨syn, hsynmem, hfind⟩ := List.exists_of_findSome?_eq_some hr
  refine ⟨List.mem_of_find?_eq_some hfind, syn, hsynmem, ?_⟩
  have hpred := List.find?_some hfind
  simpa using hpred

/-- The synonym lists of distinct entities share no synonym. -/
theorem entityMap_selfDisjoint :
    ∀ p1 ∈ entityMap, ∀ p2 ∈ entityMap, p1.1 ≠ p2.1 → ∀ s ∈ p1.2, s ∉ p2.2 := by
  decide

/-- No entity key of the synonym table is the empty string. -/
theorem entityMap_keys_ne_empty : ∀ p ∈ entityMap, p.1 ≠ "" := by decide

/-- Combined facts about one entry of the active map. -/
theorem active_entry_props {headers : List String} {e h : String}
    (hm : (e, h) ∈ getActiveEntities headers) :
    h ∈ headers ∧ ∃ syns, (e, syns) ∈ entityMap ∧ ∃ syn ∈ syns, lowerStrip h = syn := by
  obtain ⟨syns, hsyns, hres⟩ := getActive_mem hm
  obtain ⟨hmem, syn, hsynmem, hls⟩ := resolveEntity_sound hres
  exact ⟨hmem, syns, hsyns, syn, hsynmem, hls⟩

/-- The inverse header-to-entity lookup returns an actual entry of the map. -/
theorem headerToEntity_some {a : List (String × String)} {h ek : String}
    (hh : headerToEntity a h = some ek) : (ek, h) ∈ a := by
  unfold headerToEntity at hh
  cases hf : a.reverse.find? (fun p => p.2 == h) with
  | none => rw [hf] at hh; simp at hh
  | some p =>
    rw [hf] at hh
    have hmem := List.mem_of_find?_eq_some hf
    have hpred := List.find?_some hf
    rw [List.mem_reverse] at hmem
    have h2 : p.2 = h := by simpa using hpred
    have h1 : p.1 = ek := by simpa using hh
    have hp : p = (ek, h) := by
      obtain ⟨pa, pb⟩ := p
      simp only [Prod.mk.injEq]
      exact ⟨h1, h2⟩
    rwa [hp] at hmem

/-- An entity key produced by the inverse lookup on the active map is a key
of the synonym table, hence nonempty. -/
theorem headerToEntity_key_ne_empty {headers : List String} {h ek : String}
    (hh : headerToEntity (getActiveEntities headers) h = some ek) : ek ≠ "" := by
  obtain ⟨syns, hsyns, _⟩ := getActive_mem (headerToEntity_some hh)
  exact entityMap_keys_ne_empty (ek, syns) hsyns

/-- Cell-level unfolding of the row projection. -/
theorem toRowData_getElem? (r : ParsedRecord) (headers : List String) (i : ℕ) :
    (toRowData r headers)[i]? =
      (headers[i]?).map (projCell r (getActiveEntities headers)) := by
  unfold toRowData
  rw [List.getElem?_map]

/-- The everywhere-absent record, used for concrete instantiations. -/
def emptyRec : ParsedRecord :=
  { timestamp := none, quantity := none, unit_price := none, total_price := none,
    transaction_type := none, item_name := none, profit := none }

/-- Claim C9 (confirmed): for every header list, each value of the active
entity map is one of the headers with its original casing; an entity key is
present only when one of its synonyms equals some header case-insensitively
after trimming; and the map is injective, so the inverse header-to-entity
map is well defined. -/
theorem c9_resolver_invariants (headers : List String) :
    (∀ e h, (e, h) ∈ getActiveEntities headers → h ∈ headers) ∧
    (∀ e h, (e, h) ∈ getActiveEntities headers →
      ∃ syns, (e, syns) ∈ entityMap ∧ ∃ syn ∈ syns, ∃ hd ∈ headers, lowerStrip hd = syn) ∧
    (∀ e1 h1 e2 h2, (e1, h1) ∈ getActiveEntities headers →
      (e2, h2) ∈ getActiveEntities headers → e1 ≠ e2 → h1 ≠ h2) := by
  refine ⟨?_, ?_, ?_⟩
  · intro e h hm
    exact (active_entry_props hm).1
  · intro e h hm
    obtain ⟨hmem, syns, hsyns, syn, hsynmem, hls⟩ := active_entry_props hm
    exact ⟨syns, hsyns, syn, hsynmem, h, hmem, hls⟩
  · intro e1 h1 e2 h2 hm1 hm2 hne heq
    obtain ⟨_, syns1, hs1, syn1, hmem1, hls1⟩ := active_entry_props hm1
    obtain ⟨_, syns2, hs2, syn2, hmem2, hls2⟩ := active_entry_props hm2
    have hss : syn1 = syn2 := by rw [← hls1, ← hls2, heq]
    have h12 : syn1 ∈ syns2 := by rw [hss]; exact hmem2
    exact entityMap_selfDisjoint (e1, syns1) hs1 (e2, syns2) hs2 hne syn1 hmem1 h12

/-- Witness for C9 at a concrete header list. -/
theorem c9_resolver_invariants_witness :
    ("quantity", "qty") ∈ getActiveEntities ["qty"] ∧ "qty" ∈ ["qty"] :=
  ⟨by decide, (c9_resolver_invariants ["qty"]).1 "quantity" "qty" (by decide)⟩

/-- Claim C8 (confirmed): the projected row always has exactly one cell per
header; a position whose header resolves to no entity, or whose resolved
entity has no value in the record, holds the empty string rather than a
missing slot; and empty headers yield the empty row. -/
theorem c8_projection_invariants (r : ParsedRecord) (headers : List String) :
    (toRowData r headers).length = headers.length ∧
    (∀ (i : ℕ) (hd : String), headers[i]? = some hd →
      (headerToEntity (getActiveEntities headers) hd = none ∨
        ∃ ek, headerToEntity (getActiveEntities headers) hd = some ek ∧ r.getEntity ek = none) →
      (toRowData r headers)[i]? = some "") ∧
    (headers = [] → toRowData r headers = []) := by
  refine ⟨by simp [toRowData], ?_, ?_⟩
  · intro i hd hi hcond
    rw [toRowData_getElem?, hi]
    have hcell : projCell r (getActiveEntities headers) hd = "" := by
      rcases hcond with hnone | ⟨ek, hsome, hget⟩
      · simp [projCell, hnone]
      · simp [projCell, hsome, hget]
    simp [hcell]
  · intro hh
    rw [hh]
    rfl

/-- Witness for C8 at a concrete record and header list. -/
theorem c8_projection_invariants_witness :
    (["timestamp"][0]? = some "timestamp") ∧
    headerToEntity (getActiveEntities ["timestamp"]) "timestamp" = none ∧
    (toRowData emptyRec ["timestamp"])[0]? = some "" :=
  ⟨by decide, by decide,
   (c8_projection_invariants emptyRec ["timestamp"]).2.1 0 "timestamp" (by decide)
     (Or.inl (by decide))⟩

/-- Claim C10, counterexample: header "qty" resolves to the quantity entity
and the record holds the non-null value 0 there, yet the emitted cell is the
empty string, not `str(0) = "0"` — `to_row_data` computes
`str(parsed_data[entity_key] or '')` and 0 is falsy. -/
theorem c10_zero_value_counterexample :
    headerToEntity (getActiveEntities ["qty"]) "qty" = some "quantity" ∧
    ({ emptyRec with quantity := some 0 } : ParsedRecord).getEntity "quantity" = some (.pInt 0) ∧
    toRowData { emptyRec with quantity := some 0 } ["qty"] = [""] ∧
    pyStr (.pInt 0) = "0" ∧ ("" : String) ≠ "0" := by
  refine ⟨by decide, by decide, by decide, by decide, by decide⟩

/-- Claim C10 (corrected): when a header position resolves to an entity key
present in the record, the emitted cell is `str(v)` only for truthy `v`;
a falsy value (numeric zero, empty string) emits the empty string, because
the projection renders `value or ''`. -/
theorem c10_projection_emission (r : ParsedRecord) (headers : List String) (i : ℕ)
    (hd ek : String) (v : PyVal)
    (hi : headers[i]? = some hd)
    (hek : headerToEntity (getActiveEntities headers) hd = some ek)
    (hv : r.getEntity ek = some v) :
    (toRowData r headers)[i]? = some (if pyTruthy v then pyStr v else "") := by
  rw [toRowData_getElem?, hi]
  have hne : ek ≠ "" := headerToEntity_key_ne_empty hek
  have hisEmpty : ek.isEmpty = false := by
    cases hq : ek.isEmpty
    · rfl
    · exact absurd ((String.isEmpty_iff ek).mp hq) hne
  simp [projCell, hek, hisEmpty, hv]

/-- Witness for C10 at a concrete record: a truthy value is rendered. -/
theorem c10_projection_emission_witness :
    (["qty"][0]? = some "qty") ∧
    headerToEntity (getActiveEntities ["qty"]) "qty" = some "quantity" ∧
    ({ emptyRec with quantity := some 2 } : ParsedRecord).getEntity "quantity" = some (.pInt 2) ∧
    (toRowData { emptyRec with quantity := some 2 } ["qty"])[0]? =
      some (if pyTruthy (.pInt 2) then pyStr (.pInt 2) else "") :=
  ⟨by decide, by decide, by decide,
   c10_projection_emission _ ["qty"] 0 "qty" "quantity" (.pInt 2) (by decide) (by decide) (by decide)⟩

/-- Claim C5, counterexample: with extracted quantity 0, total price present
and an active map that does contain unit_price (header "satuan"), the
reconciliation stage leaves unit_price absent — it does not set it to 0 as
claimed, because the Python guard `if qty and ...` is already false at 0. -/
theorem c5_zero_qty_counterexample :
    activeHas (getActiveEntities ["satuan"]) "unit_price" = true ∧
    (reconcile { emptyRec with quantity := some 0, total_price := some 10000 }
        (getActiveEntities ["satuan"])).unit_price = none ∧
    (none : Option ℚ) ≠ some 0 := by
  refine ⟨by decide, by decide, by decide⟩

/-- Claim C5 (corrected): when the extracted quantity is 0, the whole
reconciliation stage is skipped (Python truthiness excludes 0), so the
record is returned unchanged: unit_price stays absent rather than being set
to 0, and no division by zero can occur — the `qty > 0` ternary guard is
unreachable. -/
theorem c5_zero_qty_skips_reconciliation (r : ParsedRecord)
    (active : List (String × String)) (hq : r.quantity = some 0) :
    reconcile r active = r := by
  unfold reconcile
  have h1 : optIntTruthy r.quantity = false := by rw [hq]; rfl
  simp [h1]

/-- Witness for C5 at a concrete record and active map. -/
theorem c5_zero_qty_skips_reconciliation_witness :
    ({ emptyRec with quantity := some 0, total_price := some 10000 } : ParsedRecord).quantity =
      some 0 ∧
    reconcile { emptyRec with quantity := some 0, total_price := some 10000 }
        (getActiveEntities ["satuan"]) =
      { emptyRec with quantity := some 0, total_price := some 10000 } :=
  ⟨rfl, c5_zero_qty_skips_reconciliation _ _ rfl⟩

/-- Claim C6, counterexample: with headers lacking any total_price synonym,
a price token with a `/N` tail ("harga 20rb/2") still puts total_price into
the record by direct extraction — the record is not free of the key, only
the reconciliation stage is gated. -/
theorem c6_direct_extraction_counterexample :
    activeLookup (getActiveEntities ["timestamp", "item", "qty", "unit_price"]) "total_price" =
      none ∧
    (parseTransaction clockFix "pulpen 2 unit harga 20rb/2"
        ["timestamp", "item", "qty", "unit_price"]).map
        (fun r => (r.quantity, r.unit_price, r.total_price)) =
      some (some 2, some 10000, some 20000) := by
  exact ⟨by decide, by with_unfolding_all rfl⟩

/-- Claim C6 (corrected): the reconciliation stage itself never synthesizes
a gated-out field — when the active map lacks a total_price (resp.
unit_price) entry, reconciliation leaves that field exactly as extraction
produced it; but the record may still carry total_price when the price
token itself supplied it (see the counterexample). -/
theorem c6_reconcile_frame (r : ParsedRecord) (active : List (String × String)) :
    (activeLookup active "total_price" = none →
      (reconcile r active).total_price = r.total_price) ∧
    (activeLookup active "unit_price" = none →
      (reconcile r active).unit_price = r.unit_price) := by
  constructor
  · intro hno
    have hgate : activeHas active "total_price" = false := by
      unfold activeHas
      rw [hno]
      rfl
    unfold reconcile
    rw [hgate]
    simp only [Bool.and_false, Bool.false_and, if_false, Bool.false_eq_true]
    split
    · rfl
    · rfl
  · intro hno
    have hgate : activeHas active "unit_price" = false := by
      unfold activeHas
      rw [hno]
      rfl
    unfold reconcile
    rw [hgate]
    simp only [Bool.and_false, Bool.false_and, if_false, Bool.false_eq_true]
    split
    · rfl
    · rfl

/-- Witness for C6 at a concrete record and active map. -/
theorem c6_reconcile_frame_witness :
    activeLookup (getActiveEntities ["timestamp", "item", "qty"]) "total_price" = none ∧
    (reconcile { emptyRec with quantity := some 2, unit_price := some 10000 }
        (getActiveEntities ["timestamp", "item", "qty"])).total_price =
      ({ emptyRec with quantity := some 2, unit_price := some 10000 } : ParsedRecord).total_price :=
  ⟨by decide, (c6_reconcile_frame _ _).1 (by decide)⟩

/-- Claim C2 (code_bug): the entity synonym table has no timestamp entity at
all, so a header equal to the mandatory column name "timestamp" resolves to
nothing, the active map never contains a timestamp entry, and the timestamp
the parser always computes is never projected — the mandatory first column
is always written empty. -/
theorem c2_timestamp_unresolved :
    getActiveEntities ["timestamp"] = [] ∧
    activeLookup (getActiveEntities ["timestamp", "item", "qty"]) "timestamp" = none ∧
    (parseTransaction clockFix "pulpen 2 unit" ["timestamp"]).map (fun r => r.timestamp) =
      some (some "2026-10-12 00:00:00") ∧
    (parseTransaction clockFix "pulpen 2 unit" ["timestamp"]).map
        (fun r => toRowData r ["timestamp"]) =
      some [""] := by
  refine ⟨by decide, by decide, by with_unfolding_all rfl, by with_unfolding_all rfl⟩

/-- Claim C7 (confirmed): the price-token parser normalizes the Indonesian
magnitude shorthand — "3.6jt" gives unit price 3,600,000 and no total,
"500rb" gives 500,000, and "3.6jt/2" gives total 3,600,000 with unit
1,800,000. -/
theorem c7_shorthand_normalization :
    parsePricePart "3.6jt" = some ⟨some 3600000, none⟩ ∧
    parsePricePart "500rb" = some ⟨some 500000, none⟩ ∧
    parsePricePart "3.6jt/2" = some ⟨some 1800000, some 3600000⟩ := by
  refine ⟨by with_unfolding_all rfl, by with_unfolding_all rfl, by with_unfolding_all rfl⟩

/-- Claim C1, counterexample: for the end-to-end scenario input and headers,
the code produces the row ["", "", "2", "", "", ""], not
[<timestamp>, "Laptop", "2", "3600000", "7200000", "sold"]: of these headers
only "quantity" is a synonym of an entity (the entity keys themselves are
not in their own synonym lists, and no timestamp entity exists), and the
total_price reconciliation gate fails for the same reason. -/
theorem c1_row_counterexample :
    (parseTransaction clockFix "Laptop terjual 2 unit harga 3.6jt" hdrsC1).map
        (fun r => toRowData r hdrsC1) =
      some ["", "", "2", "", "", ""] ∧
    (["", "", "2", "", "", ""] : List String) ≠
      [clockFix.fmt 0, "Laptop", "2", "3600000", "7200000", "sold"] := by
  exact ⟨by with_unfolding_all rfl, by decide⟩

set_option maxRecDepth 40000 in
/-- Claim C1 (corrected): for the scenario input and headers the parser
extracts quantity 2, unit price 3,600,000, type "sold", item "Laptop" and
the current timestamp, but reconciles no total price (header "total_price"
is not a total_price synonym), and the projected row is
["", "", "2", "", "", ""] — only "quantity" resolves; timestamp, item name,
unit price and transaction type are never projected for these headers. -/
theorem c1_pipeline_actual (clock : PyClock) :
    parseTransaction clock "Laptop terjual 2 unit harga 3.6jt" hdrsC1 =
      some { timestamp := some (clock.fmt 0), quantity := some 2, unit_price := some 3600000,
             total_price := none, transaction_type := some "sold",
             item_name := some "Laptop", profit := none } ∧
    toRowData
        { timestamp := some (clock.fmt 0), quantity := some 2, unit_price := some 3600000,
          total_price := none, transaction_type := some "sold",
          item_name := some "Laptop", profit := none } hdrsC1 =
      ["", "", "2", "", "", ""] := by
  constructor
  · with_unfolding_all rfl
  · with_unfolding_all rfl

/-- Witness for C1 at the fixed timestamp environment. -/
theorem c1_pipeline_actual_witness :
    parseTransaction clockFix "Laptop terjual 2 unit harga 3.6jt" hdrsC1 =
      some { timestamp := some (clockFix.fmt 0), quantity := some 2, unit_price := some 3600000,
             total_price := none, transaction_type := some "sold",
             item_name := some "Laptop", profit := none } ∧
    toRowData
        { timestamp := some (clockFix.fmt 0), quantity := some 2, unit_price := some 3600000,
          total_price := none, transaction_type := some "sold",
          item_name := some "Laptop", profit := none } hdrsC1 =
      ["", "", "2", "", "", ""] :=
  c1_pipeline_actual clockFix

/-- Claim C3, counterexample: with the claim's header list, an input whose
extraction yields quantity 2 and unit price 10,000 with no total gets NO
total_price from reconciliation — the header "total_price" is not among the
total_price synonyms ("total", "total harga", "harga total", "amount",
"harga", "jumlah pengeluaran"), so the schema gate fails. -/
theorem c3_gate_counterexample :
    (parseTransaction clockFix "pulpen 2 unit harga 10rb"
        ["timestamp", "item", "qty", "unit_price", "total_price"]).map
        (fun r => (r.quantity, r.unit_price, r.total_price)) =
      some (some 2, some 10000, none) ∧
    (none : Option ℚ) ≠ some 20000 := by
  exact ⟨by with_unfolding_all rfl, by decide⟩

set_option maxRecDepth 40000 in
/-- Claim C3 (corrected): the reconciliation fires once some header is an
actual total_price synonym: with headers ["timestamp","item","qty",
"unit_price","total"], any text extracting quantity 2 and unit price 10000
and no total gets total_price 20000 in the returned record. -/
theorem c3_reconciliation_fires_with_synonym_header (clock : PyClock) (text : String)
    (r : ParsedRecord) (hE : extractRecord clock text = some r)
    (hq : r.quantity = some 2) (hu : r.unit_price = some 10000) (ht : r.total_price = none) :
    ∃ r2, parseTransaction clock text ["timestamp", "item", "qty", "unit_price", "total"] =
        some r2 ∧
      r2.total_price = some 20000 := by
  obtain ⟨ts, q, u, t, tt, inm, pf⟩ := r
  have hq2 : q = some 2 := hq
  have hu2 : u = some 10000 := hu
  have ht2 : t = none := ht
  subst hq2
  subst hu2
  subst ht2
  refine ⟨reconcile ⟨ts, some 2, some 10000, none, tt, inm, pf⟩
      (getActiveEntities ["timestamp", "item", "qty", "unit_price", "total"]), ?_, ?_⟩
  · unfold parseTransaction
    rw [hE]
    rfl
  · have hA : getActiveEntities ["timestamp", "item", "qty", "unit_price", "total"] =
        [("item_name", "item"), ("quantity", "qty"), ("total_price", "total")] := by decide
    rw [hA]
    unfold reconcile
    norm_num [optIntTruthy, optRatTruthy, activeHas, activeLookup]

set_option maxRecDepth 40000 in
/-- Witness for C3 at a concrete input text. -/
theorem c3_reconciliation_fires_with_synonym_header_witness :
    extractRecord clockFix "pulpen 2 unit harga 10rb" =
      some { timestamp := some "2026-10-12 00:00:00", quantity := some 2,
             unit_price := some 10000, total_price := none, transaction_type := none,
             item_name := some "pulpen", profit := none } ∧
    ∃ r2, parseTransaction clockFix "pulpen 2 unit harga 10rb"
          ["timestamp", "item", "qty", "unit_price", "total"] = some r2 ∧
        r2.total_price = some 20000 :=
  ⟨by with_unfolding_all rfl,
   c3_reconciliation_fires_with_synonym_header clockFix "pulpen 2 unit harga 10rb"
     { timestamp := some "2026-10-12 00:00:00", quantity := some 2,
       unit_price := some 10000, total_price := none, transaction_type := none,
       item_name := some "pulpen", profit := none }
     (by with_unfolding_all rfl) rfl rfl rfl⟩

/-- Characters below the uppercase range are fixed by the ASCII lowering. -/
theorem lcC_eq_self {c : Char} (h : c.toNat < 65) : lcC c = c := by
  unfold lcC
  rw [if_neg (by omega : ¬(65 ≤ c.toNat ∧ c.toNat ≤ 90))]

/-- Numeric bounds of the digit class. -/
theorem isDigitC_toNat {c : Char} (h : isDigitC c = true) :
    48 ≤ c.toNat ∧ c.toNat ≤ 57 := by
  unfold isDigitC at h
  simpa using h

/-- Numeric bound of the whitespace class. -/
theorem pyIsSpace_toNat {c : Char} (h : pyIsSpace c = true) : c.toNat ≤ 32 := by
  unfold pyIsSpace at h
  simp at h
  omega

/-- Numeric shape of the `[\d.,]` class. -/
theorem tokP_toNat {c : Char} (h : tokP c = true) :
    c.toNat = 44 ∨ c.toNat = 46 ∨ (48 ≤ c.toNat ∧ c.toNat ≤ 57) := by
  unfold tokP at h
  simp at h
  rcases h with (h | h) | h
  · right; right; exact isDigitC_toNat h
  · right; left; rw [h]; rfl
  · left; rw [h]; rfl

/-- Distinct code points give distinct characters. -/
theorem char_ne_of_toNat_ne {c d : Char} (h : c.toNat ≠ d.toNat) : c ≠ d :=
  fun he => h (by rw [he])

/-- The lowering of a character outside the uppercase range, with a code
point other than 47, is not a slash. -/
theorem lcC_ne_slash {c : Char} (hlow : c.toNat < 65) (h47 : c.toNat ≠ 47) :
    lcC c ≠ '/' := by
  rw [lcC_eq_self hlow]
  exact char_ne_of_toNat_ne h47

/-- A successful case-insensitive match splits the text and lowers onto the
keyword. -/
theorem matchCI_parts {kw : List Char} :
    ∀ {l m r : List Char}, matchCI kw l = some (m, r) → l = m ++ r ∧ m.map lcC = kw := by
  induction kw with
  | nil =>
    intro l m r h
    have h2 : some (([] : List Char), l) = some (m, r) := h
    simp at h2
    obtain ⟨hm, hr⟩ := h2
    subst hm
    subst hr
    exact ⟨rfl, rfl⟩
  | cons k ks ih =>
    intro l m r h
    cases l with
    | nil =>
      have h2 : (none : Option (List Char × List Char)) = some (m, r) := h
      simp at h2
    | cons c cs =>
      have h2 : (if lcC c = k then (matchCI ks cs).map (fun pr => (c :: pr.1, pr.2)) else none) =
          some (m, r) := h
      by_cases hc : lcC c = k
      · rw [if_pos hc] at h2
        cases hrec : matchCI ks cs with
        | none => rw [hrec] at h2; simp at h2
        | some pr =>
          rw [hrec] at h2
          obtain ⟨m1, r1⟩ := pr
          simp at h2
          obtain ⟨hm, hr⟩ := h2
          obtain ⟨heq, hmap⟩ := ih hrec
          subst hr
          rw [← hm]
          constructor
          · rw [heq]; rfl
          · simp [hmap, hc]
      · rw [if_neg hc] at h2
        simp at h2

/-- A successful alternation match comes from one of the alternatives. -/
theorem tryAlts_parts {alts : List (List Char)} {l m r : List Char}
    (h : tryAlts alts l = some (m, r)) :
    ∃ kw ∈ alts, l = m ++ r ∧ m.map lcC = kw := by
  obtain ⟨kw, hkw, hmatch⟩ := List.exists_of_findSome?_eq_some h
  obtain ⟨h1, h2⟩ := matchCI_parts hmatch
  exact ⟨kw, hkw, h1, h2⟩

/-- No magnitude suffix contains a slash. -/
theorem sufAlts_no_slash : ∀ kw ∈ sufAlts, '/' ∉ kw := by decide

/-- A digit is not whitespace. -/
theorem not_space_of_digit {c : Char} (h : isDigitC c = true) : pyIsSpace c = false := by
  have hb := isDigitC_toNat h
  unfold pyIsSpace
  simp
  omega

/-- Dropping whitespace from an all-whitespace prefix followed by a
digit-headed run leaves the run. -/
theorem dropWhile_space_leading {sp ds : List Char}
    (hsp : ∀ c ∈ sp, pyIsSpace c = true) (hds : ∀ c ∈ ds, isDigitC c = true) :
    (sp ++ ds).dropWhile pyIsSpace = ds := by
  induction sp with
  | nil =>
    simp only [List.nil_append]
    cases ds with
    | nil => rfl
    | cons d t =>
      rw [List.dropWhile_cons, not_space_of_digit (hds d (by simp))]
      simp
  | cons s t ih =>
    rw [List.cons_append, List.dropWhile_cons, hsp s (by simp)]
    simp only [if_true]
    exact ih (fun c hc => hsp c (List.mem_cons_of_mem _ hc))

/-- Stripping whitespace around a whitespace-prefixed digit run leaves the
digit run. -/
theorem stripL_space_digits {sp ds : List Char}
    (hsp : ∀ c ∈ sp, pyIsSpace c = true) (hne : ds ≠ [])
    (hds : ∀ c ∈ ds, isDigitC c = true) : stripL (sp ++ ds) = ds := by
  unfold stripL dropSpaces
  rw [dropWhile_space_leading hsp hds]
  cases hrev : ds.reverse with
  | nil =>
    exact absurd (by simpa using hrev) hne
  | cons d t =>
    have hd : d ∈ ds := by
      rw [← List.mem_reverse, hrev]
      simp
    rw [List.dropWhile_cons, not_space_of_digit (hds d hd)]
    simp only [Bool.false_eq_true, if_false]
    rw [← hrev, List.reverse_reverse]

/-- Python `int` accepts whitespace followed by a nonempty digit run. -/
theorem pyIntL_isSome_space_digits {sp ds : List Char}
    (hsp : ∀ c ∈ sp, pyIsSpace c = true) (hne : ds ≠ [])
    (hds : ∀ c ∈ ds, isDigitC c = true) : (pyIntL (sp ++ ds)).isSome := by
  unfold pyIntL
  rw [stripL_space_digits hsp hne hds]
  cases ds with
  | nil => exact absurd rfl hne
  | cons d t =>
    have hd := hds d (by simp)
    have hbounds := isDigitC_toNat hd
    have h45 : ¬(d = '-') := by
      intro he
      rw [he] at hbounds
      simp at hbounds
    have h43 : ¬(d = '+') := by
      intro he
      rw [he] at hbounds
      simp at hbounds
    have hall : (d :: t).all isDigitC = true := List.all_eq_true.mpr hds
    simp only [if_neg h45, if_neg h43, hall, if_true]
    rfl

/-- `splitOnChar` never returns the empty list. -/
theorem splitOnChar_ne_nil (sep : Char) (l : List Char) : splitOnChar sep l ≠ [] := by
  cases l with
  | nil => simp [splitOnChar]
  | cons c t =>
    unfold splitOnChar
    cases splitOnChar sep t with
    | nil => by_cases hc : c = sep <;> simp [hc]
    | cons x r => by_cases hc : c = sep <;> simp [hc]

/-- Splitting a separator-free list gives the singleton. -/
theorem splitOnChar_not_mem {sep : Char} {l : List Char} (h : sep ∉ l) :
    splitOnChar sep l = [l] := by
  induction l with
  | nil => rfl
  | cons c t ih =>
    have hc : ¬(c = sep) := by
      intro he
      exact h (he ▸ List.mem_cons_self c t)
    have ht : sep ∉ t := fun hm => h (List.mem_cons_of_mem _ hm)
    unfold splitOnChar
    rw [ih ht]
    simp [hc]

/-- Splitting around the first separator occurrence. -/
theorem splitOnChar_append {sep : Char} {a b : List Char} (h : sep ∉ a) :
    splitOnChar sep (a ++ sep :: b) = a :: splitOnChar sep b := by
  induction a with
  | nil =>
    simp only [List.nil_append]
    have hstep : splitOnChar sep (sep :: b) =
        match splitOnChar sep b with
        | [] => if sep = sep then [[], []] else [[sep]]
        | x :: r => if sep = sep then [] :: x :: r else (sep :: x) :: r := rfl
    rw [hstep]
    cases hr : splitOnChar sep b with
    | nil => exact absurd hr (splitOnChar_ne_nil sep b)
    | cons x r => simp
  | cons c t ih =>
    have hc : ¬(c = sep) := by
      intro he
      exact h (he ▸ List.mem_cons_self c t)
    have ht : sep ∉ t := fun hm => h (List.mem_cons_of_mem _ hm)
    have hstep : splitOnChar sep (c :: (t ++ sep :: b)) =
        match splitOnChar sep (t ++ sep :: b) with
        | [] => if c = sep then [[], []] else [[c]]
        | x :: r => if c = sep then [] :: x :: r else (c :: x) :: r := rfl
    rw [List.cons_append, hstep, ih ht]
    simp [hc]

/-- Lowering fixes a list of characters below the uppercase range. -/
theorem map_lcC_eq_self {l : List Char} (h : ∀ c ∈ l, c.toNat < 65) :
    l.map lcC = l := by
  induction l with
  | nil => rfl
  | cons c t ih =>
    rw [List.map_cons, lcC_eq_self (h c (by simp)), ih (fun d hd => h d (List.mem_cons_of_mem _ hd))]

/-- Comma-filtering fixes a comma-free list of characters. -/
theorem filter_comma_eq_self {l : List Char} (h : ∀ c ∈ l, c.toNat ≠ 44) :
    l.filter (fun c => c ≠ ',') = l := by
  rw [List.filter_eq_self]
  intro c hc
  simp only [decide_eq_true_eq]
  exact char_ne_of_toNat_ne (h c hc)

/-- The price-token parser succeeds on any slash-free token: the split has a
single part, so `per_item_count` defaults to 1 and no `int` call happens. -/
theorem parsePricePartL_isSome_noSlash {g : List Char} (hne : g ≠ [])
    (h : ∀ c ∈ g, lcC c ≠ '/') : (parsePricePartL g).isSome := by
  unfold parsePricePartL
  have hempty : g.isEmpty = false := List.isEmpty_eq_false.mpr hne
  rw [hempty]
  have hnos : '/' ∉ (g.map lcC).filter (fun c => c ≠ ',') := by
    intro hm
    rw [List.mem_filter] at hm
    obtain ⟨c, hc, hlc⟩ := List.mem_map.mp hm.1
    exact h c hc (by rw [hlc])
  have hparts : priceParts g = [(g.map lcC).filter (fun c => c ≠ ',')] := by
    unfold priceParts
    exact splitOnChar_not_mem hnos
  rw [hparts]
  simp

/-- The price-token parser succeeds on a token whose single slash is
followed by whitespace and a nonempty digit run: `int(parts[1])` receives
whitespace plus digits and cannot raise. -/
theorem parsePricePartL_isSome_slash {pre s2 ds : List Char}
    (hpre : ∀ c ∈ pre, lcC c ≠ '/')
    (hs2 : ∀ c ∈ s2, pyIsSpace c = true)
    (hne : ds ≠ []) (hds : ∀ c ∈ ds, isDigitC c = true) :
    (parsePricePartL (pre ++ '/' :: (s2 ++ ds))).isSome := by
  unfold parsePricePartL
  have hempty : (pre ++ '/' :: (s2 ++ ds)).isEmpty = false :=
    List.isEmpty_eq_false.mpr (by simp)
  rw [hempty]
  have hlow : ∀ c ∈ s2 ++ ds, c.toNat < 65 := by
    intro c hc
    rcases List.mem_append.mp hc with hcs | hcd
    · have := pyIsSpace_toNat (hs2 c hcs)
      omega
    · have := isDigitC_toNat (hds c hcd)
      omega
  have hnocomma : ∀ c ∈ s2 ++ ds, c.toNat ≠ 44 := by
    intro c hc
    rcases List.mem_append.mp hc with hcs | hcd
    · have := pyIsSpace_toNat (hs2 c hcs)
      omega
    · have := isDigitC_toNat (hds c hcd)
      omega
  have hmap : ((pre ++ '/' :: (s2 ++ ds)).map lcC).filter (fun c => c ≠ ',') =
      ((pre.map lcC).filter (fun c => c ≠ ',')) ++ '/' :: (s2 ++ ds) := by
    rw [List.map_append, List.map_cons]
    rw [show lcC '/' = '/' from rfl]
    rw [map_lcC_eq_self hlow]
    rw [List.filter_append]
    congr 1
    rw [List.filter_cons]
    rw [if_pos (by simp)]
    rw [filter_comma_eq_self hnocomma]
  have hpre2 : '/' ∉ (pre.map lcC).filter (fun c => c ≠ ',') := by
    intro hm
    rw [List.mem_filter] at hm
    obtain ⟨c, hc, hlc⟩ := List.mem_map.mp hm.1
    exact hpre c hc (by rw [hlc])
  have hnos2 : '/' ∉ s2 ++ ds := by
    intro hm
    rcases List.mem_append.mp hm with hcs | hcd
    · have := pyIsSpace_toNat (hs2 _ hcs)
      have h47 : ('/').toNat = 47 := rfl
      omega
    · have := isDigitC_toNat (hds _ hcd)
      have h47 : ('/').toNat = 47 := rfl
      omega
  have hparts : priceParts (pre ++ '/' :: (s2 ++ ds)) =
      [(pre.map lcC).filter (fun c => c ≠ ','), s2 ++ ds] := by
    unfold priceParts
    rw [hmap, splitOnChar_append hpre2, splitOnChar_not_mem hnos2]
  rw [hparts]
  have hint := pyIntL_isSome_space_digits hs2 hne hds
  cases hi : pyIntL (s2 ++ ds) with
  | none => rw [hi] at hint; simp at hint
  | some cnt => simp [hi]

/-- Shape of the optional `/N` tail: either absent, or a slash framed by
whitespace runs and a nonempty digit run. -/
theorem slashPart_cases (r : List Char) :
    slashPart r = [] ∨ ∃ s1 s2 ds, slashPart r = s1 ++ '/' :: (s2 ++ ds) ∧
      (∀ c ∈ s1, pyIsSpace c = true) ∧ (∀ c ∈ s2, pyIsSpace c = true) ∧
      ds ≠ [] ∧ (∀ c ∈ ds, isDigitC c = true) := by
  unfold slashPart
  split
  next rb heq =>
    split
    next => exact Or.inl rfl
    next hnem =>
      refine Or.inr ⟨r.takeWhile pyIsSpace, rb.takeWhile pyIsSpace,
        (rb.dropWhile pyIsSpace).takeWhile isDigitC, rfl, ?_, ?_, ?_, ?_⟩
      · intro c hc
        exact List.mem_takeWhile_imp hc
      · intro c hc
        exact List.mem_takeWhile_imp hc
      · intro hnil
        rw [hnil] at hnem
        exact hnem rfl
      · intro c hc
        exact List.mem_takeWhile_imp hc
  next => exact Or.inl rfl

/-- The assembled `group(1)` of a price match parses without raising: slash-
free apart from the `/N` tail, whose `int` argument is whitespace plus a
nonempty digit run. -/
theorem g1_isSome {tok sufm slash : List Char}
    (htokne : tok ≠ []) (htok : ∀ c ∈ tok, lcC c ≠ '/')
    (hsuf : ∀ c ∈ sufm, lcC c ≠ '/')
    (hslash : slash = [] ∨ ∃ s1 s2 ds, slash = s1 ++ '/' :: (s2 ++ ds) ∧
      (∀ c ∈ s1, pyIsSpace c = true) ∧ (∀ c ∈ s2, pyIsSpace c = true) ∧
      ds ≠ [] ∧ (∀ c ∈ ds, isDigitC c = true)) :
    (parsePricePartL (tok ++ sufm ++ slash)).isSome := by
  rcases hslash with hnil | ⟨s1, s2, ds, heq, hs1, hs2, hdne, hds⟩
  · subst hnil
    apply parsePricePartL_isSome_noSlash
    · intro hn
      simp only [List.append_nil, List.append_eq_nil] at hn
      exact htokne hn.1
    · intro c hc
      simp only [List.append_nil, List.mem_append] at hc
      rcases hc with hc | hc
      · exact htok c hc
      · exact hsuf c hc
  · rw [heq, show tok ++ sufm ++ (s1 ++ '/' :: (s2 ++ ds)) =
      (tok ++ sufm ++ s1) ++ '/' :: (s2 ++ ds) by simp [List.append_assoc]]
    apply parsePricePartL_isSome_slash ?_ hs2 hdne hds
    intro c hc
    simp only [List.mem_append] at hc
    rcases hc with (hc | hc) | hc
    · exact htok c hc
    · exact hsuf c hc
    · have := pyIsSpace_toNat (hs1 c hc)
      exact lcC_ne_slash (by omega) (by omega)

/-- A successful price-regex match yields a `group(1)` on which
`_parse_price_part` cannot raise. -/
theorem matchPriceAt_parse_isSome {l : List Char} {m : PriceMatch}
    (hm : matchPriceAt l = some m) : (parsePricePartL (pmG1 m)).isSome := by
  unfold matchPriceAt at hm
  split at hm
  · exact absurd hm (by simp)
  next kw r1 htry =>
    split at hm
    · exact absurd hm (by simp)
    split at hm
    · exact absurd hm (by simp)
    next h2 =>
      have htokne : (r1.dropWhile pyIsSpace).takeWhile tokP ≠ [] := by
        intro hnil
        rw [hnil] at h2
        exact h2 rfl
      have htokmem : ∀ c ∈ (r1.dropWhile pyIsSpace).takeWhile tokP, lcC c ≠ '/' := by
        intro c hc
        have hp := List.mem_takeWhile_imp hc
        rcases tokP_toNat hp with h | h | h
        · exact lcC_ne_slash (by omega) (by omega)
        · exact lcC_ne_slash (by omega) (by omega)
        · exact lcC_ne_slash (by omega) (by omega)
      split at hm
      next sufm r4 hsuf =>
        have hmm : (⟨kw, r1.takeWhile pyIsSpace, (r1.dropWhile pyIsSpace).takeWhile tokP,
            sufm, slashPart r4⟩ : PriceMatch) = m := by
          injection hm
        rw [← hmm]
        have hsufmem : ∀ c ∈ sufm, lcC c ≠ '/' := by
          obtain ⟨kws, hkws, _, hmapeq⟩ := tryAlts_parts hsuf
          intro c hc he
          have hin : '/' ∈ kws := by
            rw [← hmapeq]
            exact he ▸ List.mem_map_of_mem lcC hc
          exact sufAlts_no_slash kws hkws hin
        exact g1_isSome htokne htokmem hsufmem (slashPart_cases r4)
      next hsufnone =>
        have hmm : (⟨kw, r1.takeWhile pyIsSpace, (r1.dropWhile pyIsSpace).takeWhile tokP,
            [], slashPart ((r1.dropWhile pyIsSpace).dropWhile tokP)⟩ : PriceMatch) = m := by
          injection hm
        rw [← hmm]
        exact g1_isSome htokne htokmem (by simp)
          (slashPart_cases ((r1.dropWhile pyIsSpace).dropWhile tokP))

/-- The leftmost price match inherits the group-1 safety of each position. -/
theorem searchPrice_parse_isSome : ∀ {l : List Char} {m : PriceMatch},
    searchPrice l = some m → (parsePricePartL (pmG1 m)).isSome := by
  intro l
  induction l with
  | nil =>
    intro m h
    simp [searchPrice] at h
  | cons c t ih =>
    intro m h
    have h2 : (match matchPriceAt (c :: t) with
               | some mm => some mm
               | none => searchPrice t) = some m := h
    cases hma : matchPriceAt (c :: t) with
    | some mm =>
      rw [hma] at h2
      have hmm : mm = m := by injection h2
      rw [← hmm]
      exact matchPriceAt_parse_isSome hma
    | none =>
      rw [hma] at h2
      exact ih h2

/-- The price stage never raises, whatever texts it searches and strips. -/
theorem priceStage_isSome (searchText removeText : List Char) :
    (priceStage searchText removeText).isSome := by
  unfold priceStage
  cases hs : searchPrice searchText with
  | none => rfl
  | some m =>
    have hps := searchPrice_parse_isSome hs
    cases hp : parsePricePartL (pmG1 m) with
    | none => rw [hp] at hps; simp at hps
    | some pd => simp [hp]

/-- Once the date stage has succeeded, no later extraction stage raises. -/
theorem extractRecord_isSome (clock : PyClock) (text : String) (d : String × List Char)
    (hd : dateStage clock text.data = some d) :
    ∃ r, extractRecord clock text = some r := by
  obtain ⟨ts, clean1⟩ := d
  have hgoal : extractRecord clock text =
      (match priceStage clean1 (qtyStage clean1).2 with
       | none => none
       | some (pd, clean3) =>
         some { timestamp := some ts, quantity := (qtyStage clean1).1,
                unit_price := pd.unit_price, total_price := pd.total_price,
                transaction_type := inferType (clean3.map lcC),
                item_name := some (itemName clean3), profit := none }) := by
    unfold extractRecord
    rw [hd]
  rw [hgoal]
  have h := priceStage_isSome clean1 (qtyStage clean1).2
  cases hp : priceStage clean1 (qtyStage clean1).2 with
  | none => rw [hp] at h; simp at h
  | some pr =>
    obtain ⟨pd, c3⟩ := pr
    exact ⟨_, rfl⟩

/-- Claim C4, counterexample: the parser CAN raise.  The phrase
"2000000 hari yang lalu" matches the date pattern, and
`now - timedelta(days=2000000)` falls before year 1 for the fixed clock,
so `_parse_relative_date` raises an uncaught `OverflowError` (modelled as
`none`); a day count above 999,999,999 already overflows the `timedelta`
constructor itself. -/
theorem c4_overflow_counterexample :
    searchDaysAgo ((toL "2000000 hari yang lalu").map lcC) = some 2000000 ∧
    clockFix.ord ≤ 2000000 ∧
    parseTransaction clockFix "2000000 hari yang lalu" ["timestamp"] = none ∧
    parseTransaction clockFix "1000000000 hari yang lalu" ["timestamp"] = none := by
  refine ⟨by decide, by decide, by decide, by decide⟩

/-- Claim C4 (corrected): the only exception that can escape
`parse_transaction` is the `OverflowError` of the date stage's datetime
arithmetic — whenever the date stage succeeds (in particular for every
text with no date phrase, or a matched day count within range), the parser
returns a record without raising; and in the price stage a numeric token
whose float parse fails yields no price fields at all (the `try/except`
returns the empty dictionary). -/
theorem c4_total_after_date_stage :
    (∀ (clock : PyClock) (text : String) (headers : List String) (d : String × List Char),
      dateStage clock text.data = some d →
      ∃ r, parseTransaction clock text headers = some r) ∧
    (∀ (cnt : ℤ) (main : List Char),
      pyFloatL (stripL (normalizeMain main).2) = none →
      priceBody cnt main = ⟨none, none⟩) := by
  constructor
  · intro clock text headers d hd
    obtain ⟨r, hr⟩ := extractRecord_isSome clock text d hd
    refine ⟨reconcile r (getActiveEntities headers), ?_⟩
    unfold parseTransaction
    rw [hr]
    rfl
  · intro cnt main hfail
    unfold priceBody
    rw [hfail]

/-- Witness for C4: a dateless text passes the date stage and parses to a
record; a price token with two dots fails the float parse and yields the
empty price dictionary. -/
theorem c4_total_after_date_stage_witness :
    dateStage clockFix (toL "x") = some ("2026-10-12 00:00:00", toL "x") ∧
    (∃ r, parseTransaction clockFix "x" [] = some r) ∧
    pyFloatL (stripL (normalizeMain (toL "1.2.3")).2) = none ∧
    priceBody 1 (toL "1.2.3") = ⟨none, none⟩ :=
  ⟨by decide,
   c4_total_after_date_stage.1 clockFix "x" [] ("2026-10-12 00:00:00", toL "x") (by decide),
   by with_unfolding_all rfl,
   c4_total_after_date_stage.2 1 (toL "1.2.3") (by with_unfolding_all rfl)⟩
